import Mathlib

/-!
# Verification of the audio capture engine (audio_manager.py)

A shallow embedding of the `AudioManager` class from `src/audio_manager.py`.
Audio samples are modelled as rationals (the code holds float32 samples; all
claims checked here concern lengths, ordering and exact arithmetic at inputs
where float32 arithmetic is exact). Frames are lists of samples; numpy arrays
become Lean lists with copy semantics made implicit by purity.
-/

namespace AudioManager

/-- A sample value, modelling one float32 audio sample. -/
abbrev Sample := ℚ

/-- Python `int(x)` on a nonnegative or negative rational: truncation toward
zero. -/
def pyIntTrunc (x : ℚ) : ℤ := if 0 ≤ x then ⌊x⌋ else -⌊-x⌋

/-- `self.chunk_size = int(sample_rate * chunk_duration)` (line 26). -/
def chunk_size (rate : ℕ) (dur : ℚ) : ℤ := pyIntTrunc (rate * dur)

/-- `self.overlap = int(sample_rate * 0.5)` (line 27). -/
def overlap (rate : ℕ) : ℤ := pyIntTrunc (rate * (1 / 2))

/-- The numpy slice `a[-O:]`: the last `O` elements, except that `a[-0:]` is
the whole array. -/
def pyLastSlice (a : List Sample) (O : ℕ) : List Sample :=
  if O = 0 then a else a.drop (a.length - O)

/-- Line 131: `accumulated_audio = accumulated_audio[-overlap:] if
len(accumulated_audio) > overlap else empty`. -/
def retainStep (O : ℕ) (a : List Sample) : List Sample :=
  if O < a.length then pyLastSlice a O else []

/-- One iteration of the worker loop body of `_process_audio_thread`
(lines 110-131) after a successful queue get: flatten and append the frame to
`accumulated_audio`; when the accumulated length has reached `chunk_size`,
emit one chunk `accumulated_audio[:chunk_size]` to the processing callback
and retain per `retainStep`. Returns the new buffer and the emitted chunks
(zero or one). -/
def stepFrame (C O : ℕ) (acc frame : List Sample) : List Sample × List (List Sample) :=
  let a := acc ++ frame
  if C ≤ a.length then (retainStep O a, [a.take C]) else (a, [])

/-- The worker of `_process_audio_thread` consuming a sequence of dequeued
frames in FIFO order, starting from buffer `acc`. Returns the final buffer
and the chunks passed to the processing callback, in emission order. -/
def runFrames (C O : ℕ) (acc : List Sample) : List (List Sample) → List Sample × List (List Sample)
  | [] => (acc, [])
  | f :: fs =>
    let s := stepFrame C O acc f
    let r := runFrames C O s.1 fs
    (r.1, s.2 ++ r.2)

/-- The mutable state of an `AudioManager` instance: the running flag, the
recording flag, whether the hardware stream is open, the frame queue
(`audio_queue`, FIFO with put at the back), the rolling buffer
(`accumulated_audio`) and the session buffer (`recording_buffer`). -/
structure State where
  is_running : Bool
  is_recording : Bool
  stream_open : Bool
  audio_queue : List (List Sample)
  accumulated_audio : List Sample
  recording_buffer : List Sample
deriving DecidableEq

/-- The state right after `__init__` (lines 15-42). -/
def initState : State :=
  ⟨false, false, false, [], [], []⟩

/-- `audio_callback` (lines 44-53): copy the delivered block onto the queue;
if recording is active, append the flattened copy to `recording_buffer`. -/
def audio_callback (s : State) (frame : List Sample) : State :=
  { s with
    audio_queue := s.audio_queue ++ [frame]
    recording_buffer :=
      if s.is_recording then s.recording_buffer ++ frame else s.recording_buffer }

/-- `start` (lines 55-81), state effects only: no-op when already running,
otherwise set the running flag, reset `accumulated_audio` and open the
stream. The optional processing callback only selects whether the worker
thread runs; the worker itself is modelled by `runFrames`. -/
def start (s : State) : State :=
  if s.is_running then s
  else { s with is_running := true, accumulated_audio := [], stream_open := true }

/-- `stop` (lines 83-103): no-op when not running, otherwise clear the
running flag, stop and release the stream, drain the queue and reset
`accumulated_audio`. -/
def stop (s : State) : State :=
  if s.is_running then
    { s with
      is_running := false
      stream_open := false
      audio_queue := []
      accumulated_audio := [] }
  else s

/-- `start_recording` (lines 137-145): clear `recording_buffer`, set the
recording flag, then `start(None)` when capture is not already active. -/
def start_recording (s : State) : State :=
  let s1 := { s with recording_buffer := ([] : List Sample), is_recording := true }
  if s1.is_running then s1 else start s1

/-- `stop_recording` (lines 147-154): when not recording, return an empty
sequence and change nothing; otherwise clear the recording flag and return a
copy of `recording_buffer` (the buffer itself is left in place). -/
def stop_recording (s : State) : List Sample × State :=
  if s.is_recording then (s.recording_buffer, { s with is_recording := false })
  else ([], s)

/-- `get_recording` (lines 156-158): a copy of the current recording buffer,
with no state change. -/
def get_recording (s : State) : List Sample := s.recording_buffer

/-- Wrap an integer into the int16 range, the effect of narrowing an in-range
or overflowing integer part to `np.int16` on the usual platforms. -/
def wrap16 (n : ℤ) : ℤ := (n + 32768) % 65536 - 32768

/-- Line 179: `(x * 32767).astype(np.int16)` applied to one sample: scale,
truncate toward zero, narrow to int16. -/
def float_to_int16 (x : Sample) : ℤ := wrap16 (pyIntTrunc (x * 32767))

/-- `save_recording` (lines 160-190), data effects only: when no explicit
data is passed, use `recording_buffer`; refuse empty data; otherwise return
the int16 sample sequence written to the mono WAV file at the configured
rate. -/
def save_recording (s : State) (audio_data : Option (List Sample)) : Option (List ℤ) :=
  let ad := audio_data.getD s.recording_buffer
  if ad.length = 0 then none else some (ad.map float_to_int16)

/-- Modelled from the spec (section 6): the conversion the spec prescribes for
persistence, `round(sample * 32767)` clipped to the int16 range. Stated here
only to be compared with `float_to_int16`; rounding is half-up, which agrees
with banker rounding at every input used against it below. -/
def specRoundClip (x : Sample) : ℤ :=
  max (-32768) (min 32767 ⌊x * 32767 + 1 / 2⌋)

/-- A full recording session from state `s`: `start_recording`, then the
given frames delivered by the hardware callback in arrival order, then
`stop_recording`. Returns the samples handed back and the final state. -/
def runSession (s : State) (frames : List (List Sample)) : List Sample × State :=
  stop_recording (frames.foldl audio_callback (start_recording s))

/-- Specification-side predicate on a frame stream: every chunk emission
during the run of `runFrames` happens with the rolling buffer at length
exactly `C` (as is the case in the deployed configuration, where the fixed
hardware block length divides both `C` and `C - O`). -/
def alignedRun (C O : ℕ) (acc : List Sample) : List (List Sample) → Bool
  | [] => true
  | f :: fs =>
    let a := acc ++ f
    if C ≤ a.length then
      decide (a.length = C) && alignedRun C O (retainStep O a) fs
    else
      alignedRun C O a fs

/-- The overlap relation between consecutive emitted chunks: the last `O`
samples of an emitted chunk of length `C` coincide with the first `O` samples
of the next one. -/
def overlapRel (C O : ℕ) (c c2 : List Sample) : Prop :=
  c.drop (C - O) = c2.take O

/-! ## Helper lemmas on the state machine -/

lemma start_recording_fields (s : State) :
    (start_recording s).is_recording = true ∧
    (start_recording s).recording_buffer = [] ∧
    (start_recording s).is_running = true := by
  by_cases h : s.is_running <;> simp [start_recording, start, h]

lemma recording_foldl (frames : List (List Sample)) :
    ∀ s : State, s.is_recording = true →
    (frames.foldl audio_callback s).recording_buffer = s.recording_buffer ++ frames.flatten ∧
    (frames.foldl audio_callback s).is_recording = true := by
  induction frames with
  | nil => intro s h; simpa using h
  | cons f fs ih =>
    intro s h
    have h2 : (audio_callback s f).is_recording = true := by simp [audio_callback, h]
    have h3 := ih (audio_callback s f) h2
    refine ⟨?_, h3.2⟩
    rw [List.foldl_cons, h3.1]
    simp [audio_callback, h]

/-! ## C6: session capture is exact concatenation -/

/-- C6 (confirmed): for every recording session, the sequence returned by
`stop_recording` is exactly the concatenation, in arrival order, of the
flattened frames delivered by the hardware callback between
`start_recording` and `stop_recording`; its length equals the sum of the
frame lengths, and `start_recording` first clears the session buffer to
empty. -/
theorem c6_session_exact (s : State) (frames : List (List Sample)) :
    (runSession s frames).1 = frames.flatten ∧
    (runSession s frames).1.length = (frames.map List.length).sum ∧
    (start_recording s).recording_buffer = [] := by
  obtain ⟨hrec, hbuf, _⟩ := start_recording_fields s
  obtain ⟨hjoin, hrec2⟩ := recording_foldl frames (start_recording s) hrec
  have h1 : (runSession s frames).1 = frames.flatten := by
    unfold runSession stop_recording
    rw [if_pos hrec2]
    dsimp only
    rw [hjoin, hbuf, List.nil_append]
  exact ⟨h1, by rw [h1]; exact List.length_flatten frames, hbuf⟩

/-! ## C7: idempotence of stop and stop_recording -/

/-- C7 (confirmed): calling `stop` twice in a row, or `stop_recording` twice
in a row, produces no state change on the second call (the model is total,
so no error can occur); in every state where recording is not active,
`stop_recording` returns an empty sequence and changes no state. -/
theorem c7_idempotence (s : State) :
    stop (stop s) = stop s ∧
    stop_recording (stop_recording s).2 = ([], (stop_recording s).2) ∧
    (s.is_recording = false → stop_recording s = ([], s)) := by
  refine ⟨?_, ?_, ?_⟩
  · by_cases h : s.is_running <;> simp [stop, h]
  · by_cases h : s.is_recording <;> simp [stop_recording, h]
  · intro h; simp [stop_recording, h]

/-- Witness for C7 at the freshly constructed state. -/
theorem c7_witness :
    stop (stop initState) = stop initState ∧
    stop_recording (stop_recording initState).2 = ([], (stop_recording initState).2) ∧
    stop_recording initState = ([], initState) := by
  have h := c7_idempotence initState
  exact ⟨h.1, h.2.1, h.2.2 rfl⟩

/-! ## C10: the session buffer survives stop_recording -/

/-- C10 (confirmed): `stop_recording` returns a copy and leaves the session
buffer contents intact; `get_recording` and `save_recording` with no
explicit data still observe exactly the samples of the just-ended session,
and the buffer is cleared by the next `start_recording`. -/
theorem c10_buffer_survives (s : State) :
    (stop_recording s).2.recording_buffer = s.recording_buffer ∧
    get_recording (stop_recording s).2 = s.recording_buffer ∧
    save_recording (stop_recording s).2 none = save_recording s none ∧
    (start_recording s).recording_buffer = [] := by
  refine ⟨?_, ?_, ?_, (start_recording_fields s).2.1⟩ <;>
    by_cases h : s.is_recording <;>
      simp [stop_recording, get_recording, save_recording, h]

/-! ## C5: what stop really does -/

/-- C5 (counterexample): in the reachable state obtained by
`start_recording` from a fresh instance, `stop` leaves the recording flag
set while clearing the running flag, so `stop` does not set the state to
Idle with recording cleared, and the invariant that recording implies
capturing is violated right after `stop`. -/
theorem c5_counterexample :
    (start_recording initState).is_running = true ∧
    (start_recording initState).is_recording = true ∧
    (stop (start_recording initState)).is_recording = true ∧
    (stop (start_recording initState)).is_running = false := by decide

/-- C5 (amended): calling `stop` while running drains the frame queue to
empty, resets the rolling buffer to empty, clears the running flag and
closes the stream, but leaves the recording flag unchanged (it does not
clear it), and leaves the session buffer contents unchanged. -/
theorem c5_stop_effects (s : State) (h : s.is_running = true) :
    (stop s).audio_queue = [] ∧
    (stop s).accumulated_audio = [] ∧
    (stop s).is_running = false ∧
    (stop s).stream_open = false ∧
    (stop s).is_recording = s.is_recording ∧
    (stop s).recording_buffer = s.recording_buffer := by
  simp [stop, h]

/-- Witness for C5 at the reachable running state `start initState`. -/
theorem c5_witness :
    (stop (start initState)).audio_queue = [] ∧
    (stop (start initState)).accumulated_audio = [] ∧
    (stop (start initState)).is_running = false ∧
    (stop (start initState)).stream_open = false ∧
    (stop (start initState)).is_recording = (start initState).is_recording ∧
    (stop (start initState)).recording_buffer = (start initState).recording_buffer :=
  c5_stop_effects (start initState) (by decide)

/-! ## C3: one emission per dequeued frame -/

/-- C3 (counterexample): a single dequeued frame that brings the rolling
buffer to twice the chunk size causes exactly one callback invocation before
the next dequeue, not at least two: the worker tests the threshold with a
single conditional per dequeued frame. Here `C = 2`, `O = 1` and one frame
of four samples is appended to an empty buffer. -/
theorem c3_counterexample :
    2 * 2 ≤ (([] : List Sample) ++ [(1 : ℚ), 2, 3, 4]).length ∧
    (stepFrame 2 1 [] [(1 : ℚ), 2, 3, 4]).2.length = 1 ∧
    ¬ 2 ≤ (stepFrame 2 1 [] [(1 : ℚ), 2, 3, 4]).2.length := by decide

/-- C3 (amended): after appending a dequeued frame, the worker emits at most
one chunk per dequeued frame: exactly one when the rolling buffer length has
reached `chunk_size` (even if it reached twice the chunk size) and none
otherwise; every chunk passed to the processing callback has length exactly
`chunk_size`. -/
theorem c3_step_emissions (C O : ℕ) (acc f : List Sample) :
    (stepFrame C O acc f).2.length = (if C ≤ acc.length + f.length then 1 else 0) ∧
    ∀ c ∈ (stepFrame C O acc f).2, c.length = C := by
  by_cases h : C ≤ acc.length + f.length
  · have h2 : C ≤ (acc ++ f).length := by simpa [List.length_append] using h
    simp [stepFrame, h2, h, List.length_take, Nat.min_eq_left h2]
  · have h2 : ¬ C ≤ (acc ++ f).length := by simpa [List.length_append] using h
    simp [stepFrame, h2, h]

/-- Witness for C3 at a concrete frame. -/
theorem c3_witness :
    (stepFrame 2 1 [] [(5 : ℚ), 6, 7]).2.length =
      (if 2 ≤ ([] : List Sample).length + [(5 : ℚ), 6, 7].length then 1 else 0) ∧
    [(5 : ℚ), 6].length = 2 :=
  ⟨(c3_step_emissions 2 1 [] [(5 : ℚ), 6, 7]).1,
   (c3_step_emissions 2 1 [] [(5 : ℚ), 6, 7]).2 [(5 : ℚ), 6] (by decide)⟩

/-! ## C4: the retention step after an emission -/

/-- C4 (counterexample): an emission whose pre-emission rolling buffer length
equals the overlap size empties the buffer instead of retaining it in full.
Here `C = 2`, `O = 3`: one frame of three samples triggers an emission with
buffer length `3 = O`, and the new buffer is empty, not the full buffer. -/
theorem c4_counterexample :
    2 ≤ (([] : List Sample) ++ [(5 : ℚ), 6, 7]).length ∧
    (([] : List Sample) ++ [(5 : ℚ), 6, 7]).length = 3 ∧
    (stepFrame 2 3 [] [(5 : ℚ), 6, 7]).1 = [] ∧
    (stepFrame 2 3 [] [(5 : ℚ), 6, 7]).1 ≠ ([] : List Sample) ++ [(5 : ℚ), 6, 7] := by
  decide

/-- C4 (amended): immediately after each chunk emission with a positive
overlap size, the new rolling buffer is the last `O` samples of the
pre-emission buffer when the pre-emission length strictly exceeds `O`, and
it is emptied (not retained in full) when the pre-emission length is at most
`O`. -/
theorem c4_retention (C O : ℕ) (acc f : List Sample) (hO : 0 < O)
    (hC : C ≤ (acc ++ f).length) :
    (O < (acc ++ f).length →
      (stepFrame C O acc f).1 = (acc ++ f).drop ((acc ++ f).length - O) ∧
      (stepFrame C O acc f).1.length = O) ∧
    ((acc ++ f).length ≤ O → (stepFrame C O acc f).1 = []) := by
  have hC2 : C ≤ acc.length + f.length := by simpa [List.length_append] using hC
  constructor
  · intro hlt
    have hlt2 : O < acc.length + f.length := by simpa [List.length_append] using hlt
    have hy : (stepFrame C O acc f).1 = (acc ++ f).drop ((acc ++ f).length - O) := by
      simp [stepFrame, hC2, retainStep, hlt2, pyLastSlice, hO.ne', List.length_append]
    refine ⟨hy, ?_⟩
    rw [hy, List.length_drop]
    omega
  · intro hle
    have hle2 : ¬ O < acc.length + f.length := by
      simp only [List.length_append] at hle
      omega
    simp [stepFrame, hC2, retainStep, hle2]

/-- Witness for C4 at a concrete frame with `C = 2`, `O = 1`. -/
theorem c4_witness :
    (stepFrame 2 1 [] [(1 : ℚ), 2, 3]).1 =
      (([] : List Sample) ++ [(1 : ℚ), 2, 3]).drop
        ((([] : List Sample) ++ [(1 : ℚ), 2, 3]).length - 1) ∧
    (stepFrame 2 1 [] [(1 : ℚ), 2, 3]).1.length = 1 :=
  (c4_retention 2 1 [] [(1 : ℚ), 2, 3] (by decide) (by decide)).1 (by decide)

/-! ## C9: the configuration invariant is not enforced -/

/-- C9 (counterexample): the constructor accepts `sample_rate = 16000` and
`chunk_duration = 0.25`, a configuration with a positive sample rate for
which the derived overlap (8000) is not strictly less than the derived chunk
size (4000): the invariant is not validated at construction. -/
theorem c9_counterexample :
    0 < (16000 : ℕ) ∧ ¬ overlap 16000 < chunk_size 16000 (1 / 4) := by
  refine ⟨by norm_num, ?_⟩
  norm_num [overlap, chunk_size, pyIntTrunc]

/-- C9 (amended): the constructor performs no validation, so the invariant
holds only for part of the accepted configurations: for every sample rate at
least 1 and every chunk duration at least 1 second, the derived overlap is
strictly less than the derived chunk size; durations of at most half a
second violate it. -/
theorem c9_invariant (rate : ℕ) (dur : ℚ) (hr : 1 ≤ rate) (hd : 1 ≤ dur) :
    overlap rate < chunk_size rate dur := by
  have hrq : (1 : ℚ) ≤ (rate : ℚ) := by exact_mod_cast hr
  have h1 : (0 : ℚ) ≤ (rate : ℚ) * (1 / 2) := by positivity
  have h2 : (0 : ℚ) ≤ (rate : ℚ) * dur := by nlinarith
  unfold overlap chunk_size pyIntTrunc
  rw [if_pos h1, if_pos h2]
  have ha : ⌊(rate : ℚ) * (1 / 2)⌋ < (rate : ℤ) := by
    rw [Int.floor_lt]
    push_cast
    nlinarith
  have hb : (rate : ℤ) ≤ ⌊(rate : ℚ) * dur⌋ := by
    rw [Int.le_floor]
    push_cast
    nlinarith
  omega

/-- Witness for C9 at the default configuration. -/
theorem c9_witness :
    (1 : ℕ) ≤ 16000 ∧ (1 : ℚ) ≤ 2 ∧ overlap 16000 < chunk_size 16000 2 :=
  ⟨by norm_num, by norm_num, c9_invariant 16000 2 (by norm_num) (by norm_num)⟩

/-! ## C8: the persisted sample conversion -/

lemma wrap16_eq_self (n : ℤ) (h1 : -32768 ≤ n) (h2 : n ≤ 32767) : wrap16 n = n := by
  unfold wrap16
  rw [Int.emod_eq_of_lt (by omega) (by omega)]
  omega

lemma pyIntTrunc_bound (x : ℚ) (h1 : -1 ≤ x) (h2 : x ≤ 1) :
    -32767 ≤ pyIntTrunc (x * 32767) ∧ pyIntTrunc (x * 32767) ≤ 32767 := by
  have hceil : (⌊(32767 : ℚ)⌋ : ℤ) = 32767 := by norm_num
  unfold pyIntTrunc
  by_cases h : 0 ≤ x * 32767
  · rw [if_pos h]
    constructor
    · have : (0 : ℤ) ≤ ⌊x * 32767⌋ := Int.floor_nonneg.mpr h
      omega
    · have hx : x * 32767 ≤ (32767 : ℚ) := by nlinarith
      have := Int.floor_le_floor hx
      omega
  · rw [if_neg h]
    push_neg at h
    constructor
    · have hx : -(x * 32767) ≤ (32767 : ℚ) := by nlinarith
      have := Int.floor_le_floor hx
      omega
    · have : (0 : ℤ) ≤ ⌊-(x * 32767)⌋ := Int.floor_nonneg.mpr (by linarith)
      omega

/-- C8 (counterexample): at the in-range sample `0.5` (exact in float32, with
`0.5 * 32767 = 16383.5` also exact), the persisted value is the truncation
`16383`, while the conversion the claim prescribes, `round(0.5 * 32767)`
clipped to int16, is `16384` (half-up and banker rounding agree here). -/
theorem c8_counterexample :
    save_recording initState (some [(1 : ℚ) / 2]) = some [16383] ∧
    specRoundClip ((1 : ℚ) / 2) = 16384 ∧ (16383 : ℤ) ≠ 16384 := by
  refine ⟨?_, ?_, by decide⟩
  · norm_num [save_recording, initState, float_to_int16, pyIntTrunc, wrap16]
  · norm_num [specRoundClip]

/-- C8 (amended): when a recording is persisted, every sample `x` is
converted to the truncation toward zero of `x * 32767` narrowed to int16 (no
rounding and no clipping are applied); for samples in the normalized range
`[-1, 1]` the narrowing is the identity and the written value lies in
`[-32767, 32767]`. -/
theorem c8_truncation (s : State) (x : Sample) (h1 : -1 ≤ x) (h2 : x ≤ 1) :
    save_recording s (some [x]) = some [pyIntTrunc (x * 32767)] ∧
    -32767 ≤ float_to_int16 x ∧ float_to_int16 x ≤ 32767 := by
  obtain ⟨hb1, hb2⟩ := pyIntTrunc_bound x h1 h2
  have hw : float_to_int16 x = pyIntTrunc (x * 32767) :=
    wrap16_eq_self _ (by omega) hb2
  refine ⟨?_, ?_, ?_⟩
  · simp [save_recording, hw]
  · rw [hw]; exact hb1
  · rw [hw]; exact hb2

/-- Witness for C8 at the sample `0.25`. -/
theorem c8_witness :
    save_recording initState (some [(1 : ℚ) / 4]) =
      some [pyIntTrunc ((1 : ℚ) / 4 * 32767)] ∧
    -32767 ≤ float_to_int16 ((1 : ℚ) / 4) ∧ float_to_int16 ((1 : ℚ) / 4) ≤ 32767 :=
  c8_truncation initState ((1 : ℚ) / 4) (by norm_num) (by norm_num)

/-! ## Helper lemmas on the worker runs -/

lemma stepFrame_emit {C O : ℕ} {acc f : List Sample} (h : C ≤ (acc ++ f).length) :
    stepFrame C O acc f = (retainStep O (acc ++ f), [(acc ++ f).take C]) := by
  unfold stepFrame
  rw [if_pos h]

lemma stepFrame_skip {C O : ℕ} {acc f : List Sample} (h : ¬ C ≤ (acc ++ f).length) :
    stepFrame C O acc f = (acc ++ f, []) := by
  unfold stepFrame
  rw [if_neg h]

lemma runFrames_cons (C O : ℕ) (acc f : List Sample) (fs : List (List Sample)) :
    runFrames C O acc (f :: fs) =
      ((runFrames C O (stepFrame C O acc f).1 fs).1,
       (stepFrame C O acc f).2 ++ (runFrames C O (stepFrame C O acc f).1 fs).2) := rfl

lemma runFrames_nil (C O : ℕ) (acc : List Sample) :
    runFrames C O acc [] = (acc, []) := rfl

lemma retainStep_of_lt {O : ℕ} {a : List Sample} (h0 : O ≠ 0) (h : O < a.length) :
    retainStep O a = a.drop (a.length - O) := by
  unfold retainStep pyLastSlice
  rw [if_pos h, if_neg h0]

lemma retainStep_length {O : ℕ} {a : List Sample} (h0 : O ≠ 0) (h : O < a.length) :
    (retainStep O a).length = O := by
  rw [retainStep_of_lt h0 h, List.length_drop]
  omega

lemma runFrames_no_emit (C O : ℕ) :
    ∀ (fs : List (List Sample)) (acc : List Sample),
    acc.length + (fs.map List.length).sum < C →
    runFrames C O acc fs = (acc ++ fs.flatten, []) := by
  intro fs
  induction fs with
  | nil => intro acc h; simp [runFrames]
  | cons f fs ih =>
    intro acc h
    simp only [List.map_cons, List.sum_cons] at h
    have hlen : (acc ++ f).length = acc.length + f.length := List.length_append acc f
    have hl : ¬ C ≤ (acc ++ f).length := by omega
    have hr := ih (acc ++ f) (by omega)
    rw [runFrames_cons, stepFrame_skip hl, hr]
    simp

lemma runFrames_chunk_length (C O : ℕ) :
    ∀ (fs : List (List Sample)) (acc : List Sample) (c : List Sample),
    c ∈ (runFrames C O acc fs).2 → c.length = C := by
  intro fs
  induction fs with
  | nil => intro acc c hc; simp [runFrames] at hc
  | cons f fs ih =>
    intro acc c hc
    rw [runFrames_cons] at hc
    by_cases h : C ≤ (acc ++ f).length
    · rw [stepFrame_emit h] at hc
      rcases List.mem_append.mp hc with hc | hc
      · rw [List.mem_singleton.mp hc, List.length_take]
        exact Nat.min_eq_left h
      · exact ih _ _ hc
    · rw [stepFrame_skip h] at hc
      rcases List.mem_append.mp hc with hc | hc
      · simp at hc
      · exact ih _ _ hc

lemma runFrames_one_emit (C O : ℕ) (hO : 0 < O) (hOC : O < C) :
    ∀ (fs : List (List Sample)) (acc : List Sample),
    acc.length < C →
    C ≤ acc.length + (fs.map List.length).sum →
    acc.length + (fs.map List.length).sum + O < 2 * C →
    (runFrames C O acc fs).2.length = 1 := by
  intro fs
  induction fs with
  | nil =>
    intro acc h1 h2 h3
    simp only [List.map_nil, List.sum_nil, Nat.add_zero] at h2
    omega
  | cons f fs ih =>
    intro acc h1 h2 h3
    simp only [List.map_cons, List.sum_cons] at h2 h3
    have hlen : (acc ++ f).length = acc.length + f.length := List.length_append acc f
    by_cases h : C ≤ (acc ++ f).length
    · have hOlt : O < (acc ++ f).length := by omega
      have hacc1 : (retainStep O (acc ++ f)).length = O := retainStep_length hO.ne' hOlt
      have hnone := runFrames_no_emit C O fs (retainStep O (acc ++ f))
        (by rw [hacc1]; omega)
      rw [runFrames_cons, stepFrame_emit h, hnone]
      simp
    · have hrec := ih (acc ++ f) (by omega) (by omega) (by omega)
      rw [runFrames_cons, stepFrame_skip h]
      simpa using hrec

/-! ## C2: the concrete 40000-sample scenario -/

/-- C2 (counterexample): delivering the 40000 samples as two frames of 32000
and 8000 samples yields one emission, but the retained rolling buffer
afterwards has length 16000, not 8000: the retention keeps the last 8000
samples of the buffer present at emission time, and the 8000 samples
arriving after the emission pile on top of them. -/
theorem c2_counterexample :
    (([List.replicate 32000 (0 : ℚ), List.replicate 8000 (0 : ℚ)].map List.length).sum
      = 40000) ∧
    (runFrames 32000 8000 []
      [List.replicate 32000 (0 : ℚ), List.replicate 8000 (0 : ℚ)]).1.length = 16000 ∧
    ¬ (runFrames 32000 8000 []
      [List.replicate 32000 (0 : ℚ), List.replicate 8000 (0 : ℚ)]).1.length = 8000 := by
  have gen : ∀ xs ys : List Sample, xs.length = 32000 → ys.length = 8000 →
      (runFrames 32000 8000 [] [xs, ys]).1.length = 16000 := by
    intro xs ys hx hy
    have hemit : (32000 : ℕ) ≤ (([] : List Sample) ++ xs).length := by simp [hx]
    have hover : (8000 : ℕ) < (([] : List Sample) ++ xs).length := by simp [hx]
    have hstep1len : ((stepFrame 32000 8000 [] xs).1).length = 8000 := by
      rw [stepFrame_emit hemit, retainStep_of_lt (by omega) hover]
      dsimp only
      rw [List.length_drop]
      simp [hx]
    have hskip : ¬ (32000 : ℕ) ≤ ((stepFrame 32000 8000 [] xs).1 ++ ys).length := by
      rw [List.length_append, hstep1len, hy]
      omega
    rw [runFrames_cons, runFrames_cons, runFrames_nil]
    dsimp only
    rw [stepFrame_skip hskip]
    dsimp only
    rw [List.length_append, hstep1len, hy]
  have key : (runFrames 32000 8000 []
      [List.replicate 32000 (0 : ℚ), List.replicate 8000 (0 : ℚ)]).1.length = 16000 :=
    gen (List.replicate 32000 (0 : ℚ)) (List.replicate 8000 (0 : ℚ))
      (List.length_replicate 32000 0) (List.length_replicate 8000 0)
  refine ⟨?_, key, by omega⟩
  simp only [List.map_cons, List.map_nil, List.length_replicate,
    List.sum_cons, List.sum_nil]
  omega

/-- C2 (amended): with sample_rate 16000 and chunk_duration 2.0 the derived
chunk size is 32000 and the overlap 8000; feeding 40000 samples to the chunk
assembler, in any number of frames, results in exactly one invocation of the
processing callback, with a chunk of length exactly 32000; and when the
40000 samples arrive as a single frame, the rolling buffer afterwards has
length exactly 8000 (for other splits it can be longer). -/
theorem c2_concrete_scenario :
    chunk_size 16000 2 = 32000 ∧ overlap 16000 = 8000 ∧
    (∀ frames : List (List Sample), (frames.map List.length).sum = 40000 →
      (runFrames 32000 8000 [] frames).2.length = 1 ∧
      ∀ c ∈ (runFrames 32000 8000 [] frames).2, c.length = 32000) ∧
    (∀ xs : List Sample, xs.length = 40000 →
      (runFrames 32000 8000 [] [xs]).1.length = 8000) := by
  refine ⟨by norm_num [chunk_size, pyIntTrunc], by norm_num [overlap, pyIntTrunc], ?_, ?_⟩
  · intro frames hsum
    refine ⟨?_, fun c hc => runFrames_chunk_length 32000 8000 frames [] c hc⟩
    exact runFrames_one_emit 32000 8000 (by norm_num) (by norm_num) frames []
      (by norm_num) (by rw [hsum]; norm_num) (by rw [hsum]; norm_num)
  · intro xs hxs
    have h : 32000 ≤ (([] : List Sample) ++ xs).length := by simp [hxs]
    have hlt : 8000 < (([] : List Sample) ++ xs).length := by simp [hxs]
    have e : (runFrames 32000 8000 [] [xs]).1 = (stepFrame 32000 8000 [] xs).1 := rfl
    rw [e, stepFrame_emit h, retainStep_of_lt (by norm_num) hlt]
    dsimp only
    rw [List.length_drop]
    simp [hxs]

/-! ## C1: overlap correctness across consecutive chunks -/

lemma alignedRun_cons (C O : ℕ) (acc f : List Sample) (fs : List (List Sample)) :
    alignedRun C O acc (f :: fs) =
      (if C ≤ (acc ++ f).length then
        decide ((acc ++ f).length = C) && alignedRun C O (retainStep O (acc ++ f)) fs
      else alignedRun C O (acc ++ f) fs) := rfl

lemma runFrames_chain_aux (C O : ℕ) (hOC : O < C) :
    ∀ (fs : List (List Sample)) (acc : List Sample) (prev : Option (List Sample)),
    (∀ p, prev = some p →
      p.length = C ∧ O ≤ acc.length ∧ acc.take O = p.drop (C - O)) →
    alignedRun C O acc fs = true →
    List.Chain' (overlapRel C O) (prev.toList ++ (runFrames C O acc fs).2) := by
  intro fs
  induction fs with
  | nil =>
    intro acc prev hprev hal
    rw [runFrames_nil]
    cases prev <;> simp [List.chain'_singleton]
  | cons f fs ih =>
    intro acc prev hprev hal
    rw [alignedRun_cons] at hal
    by_cases h : C ≤ (acc ++ f).length
    · rw [if_pos h, Bool.and_eq_true] at hal
      have hlen : (acc ++ f).length = C := of_decide_eq_true hal.1
      have hal2 : alignedRun C O (retainStep O (acc ++ f)) fs = true := hal.2
      rw [runFrames_cons, stepFrame_emit h]
      dsimp only
      have htake : (acc ++ f).take C = acc ++ f := by
        rw [← hlen]
        exact List.take_length _
      rw [htake]
      have hinv : ∀ p, (some (acc ++ f) : Option (List Sample)) = some p →
          p.length = C ∧ O ≤ (retainStep O (acc ++ f)).length ∧
          (retainStep O (acc ++ f)).take O = p.drop (C - O) := by
        intro p hp
        injection hp with hp
        subst hp
        refine ⟨hlen, ?_, ?_⟩
        · by_cases h0 : O = 0
          · omega
          · rw [retainStep_length h0 (by omega)]
        · by_cases h0 : O = 0
          · subst h0
            rw [List.take_zero, Nat.sub_zero, ← hlen, List.drop_length]
          · rw [retainStep_of_lt h0 (by omega), hlen]
            have hl : ((acc ++ f).drop (C - O)).length = O := by
              rw [List.length_drop, hlen]
              omega
            rw [List.take_of_length_le (le_of_eq hl)]
      have hrec := ih (retainStep O (acc ++ f)) (some (acc ++ f)) hinv hal2
      cases prev with
      | none => simpa using hrec
      | some p =>
        obtain ⟨hpC, hOacc, htakeO⟩ := hprev p rfl
        have hrel : overlapRel C O p (acc ++ f) := by
          unfold overlapRel
          rw [List.take_append_of_le_length hOacc, ← htakeO]
        exact List.Chain'.cons hrel (by simpa using hrec)
    · rw [if_neg h] at hal
      rw [runFrames_cons, stepFrame_skip h]
      dsimp only
      have hinv : ∀ p, prev = some p →
          p.length = C ∧ O ≤ (acc ++ f).length ∧
          (acc ++ f).take O = p.drop (C - O) := by
        intro p hp
        obtain ⟨h1, h2, h3⟩ := hprev p hp
        refine ⟨h1, le_trans h2 (by rw [List.length_append]; omega), ?_⟩
        rw [List.take_append_of_le_length h2]
        exact h3
      have hrec := ih (acc ++ f) prev hinv hal
      simpa using hrec

/-- C1 (counterexample): with `C = 4`, `O = 2` and the continuous stream
delivered as frames of five and two samples, the first emission happens with
a rolling buffer of five samples; the retention then keeps the last two
samples of that buffer, which are not the last two samples of the first
chunk, so the overlap property fails between the two emitted chunks. -/
theorem c1_counterexample :
    (2 : ℕ) < 4 ∧
    (runFrames 4 2 [] [[(1 : ℚ), 2, 3, 4, 5], [6, 7]]).2
      = [[(1 : ℚ), 2, 3, 4], [(4 : ℚ), 5, 6, 7]] ∧
    ¬ overlapRel 4 2 [(1 : ℚ), 2, 3, 4] [(4 : ℚ), 5, 6, 7] := by
  refine ⟨by norm_num, by decide, ?_⟩
  unfold overlapRel
  decide

/-- C1 (amended): for every configuration with `O < C` and every continuous
frame stream on which each emission happens with the rolling buffer at
length exactly `C` (as in the deployed configuration, where the fixed
hardware block length divides both `C` and `C - O`), consecutive emitted
chunks overlap correctly: the last `O` samples of the k-th emitted chunk
equal the first `O` samples of the (k+1)-th, and every emitted chunk has
length exactly `C`. For streams violating that alignment the property can
fail. -/
theorem c1_overlap_aligned (C O : ℕ) (hOC : O < C) (frames : List (List Sample))
    (hal : alignedRun C O [] frames = true) :
    List.Chain' (overlapRel C O) (runFrames C O [] frames).2 ∧
    ∀ c ∈ (runFrames C O [] frames).2, c.length = C := by
  constructor
  · have h := runFrames_chain_aux C O hOC frames [] none (by intro p hp; cases hp) hal
    simpa using h
  · intro c hc
    exact runFrames_chunk_length C O frames [] c hc

/-- Witness for C1 on an aligned stream with `C = 4`, `O = 2`. -/
theorem c1_witness :
    alignedRun 4 2 [] [[(1 : ℚ), 2, 3, 4], [5, 6], [7, 8]] = true ∧
    List.Chain' (overlapRel 4 2)
      (runFrames 4 2 [] [[(1 : ℚ), 2, 3, 4], [5, 6], [7, 8]]).2 :=
  ⟨by decide,
   (c1_overlap_aligned 4 2 (by norm_num)
      [[(1 : ℚ), 2, 3, 4], [5, 6], [7, 8]] (by decide)).1⟩

/-- Witness for C2: the 40000 samples delivered as a single frame. -/
theorem c2_witness :
    (runFrames 32000 8000 [] [List.replicate 40000 (0 : ℚ)]).2.length = 1 ∧
    (runFrames 32000 8000 [] [List.replicate 40000 (0 : ℚ)]).1.length = 8000 := by
  have h := c2_concrete_scenario
  exact ⟨(h.2.2.1 [List.replicate 40000 (0 : ℚ)] (by norm_num)).1,
         h.2.2.2 (List.replicate 40000 (0 : ℚ)) (by norm_num)⟩

end AudioManager
